import Mathlib

/-!
Verification development for the SchemaFlow schema-inference and versioning
engine.  The definitions below are a shallow embedding of the JavaScript
source: `typeName`, `collect`, `buildSchema`, `deepDifferent` and
`inferAndMaybeCreateVersion` follow `infer.js`, and `diffSchemas` follows
`routes.js`.  JSON-like payload values are modelled as a tagged union, the
mutable per-run statistics object as an insertion-ordered association list,
and the two awaited persistence operations of `inferAndMaybeCreateVersion`
(read the latest snapshot, append the new one) as explicit state passing over
a list of stored snapshots.
-/

namespace SchemaFlow

/-- Document values as produced by the extractors and stored in
`RawRecord.payload`.  `vnull` stands for both `null` and `undefined`, which
`infer.js` treats identically (`v === null || v === undefined`).  A JS number
is modelled as a rational; `Number.isInteger` corresponds to the denominator
being 1.  `vobj` lists its fields in `Object.keys` enumeration order. -/
inductive Value : Type where
  | vnull
  | vbool (b : Bool)
  | vnum (q : Rat)
  | vstr (s : String)
  | varr (items : List Value)
  | vobj (fields : List (String × Value))

/-- Entry of the per-run statistics map: `{ count, types }` from `collect`.
The JS `Set` of type tags is modelled as its insertion-ordered,
duplicate-free element list, which is what `Array.from` later produces. -/
structure FieldStat where
  count : Nat
  types : List String
deriving DecidableEq

/-- The mutable `stats` object of `infer.js`, keyed by field path.  JS object
string keys enumerate in insertion order, so an insertion-ordered association
list is a faithful model. -/
abbrev Stats := List (String × FieldStat)

/-- Lines 3-9 of `infer.js`: fixed-precedence type classification. -/
def typeName : Value → String
  | .vnull => "null"
  | .varr _ => "array"
  | .vobj _ => "object"
  | .vnum q => if q.den = 1 then "integer" else "number"
  | .vstr _ => "string"
  | .vbool _ => "boolean"

/-- JS `Set.add`: append the tag unless it is already present. -/
def addTag (t : String) (l : List String) : List String :=
  if t ∈ l then l else l ++ [t]

/-- Lines 16-18 / 26-28 of `infer.js`:
`stats[key] = stats[key] || { count:0, types:new Set() }; stats[key].count++;
stats[key].types.add(tag)`. -/
def bump (st : Stats) (key : String) (tag : String) : Stats :=
  match st with
  | [] => [(key, ⟨1, addTag tag []⟩)]
  | (k, s) :: rest =>
    if k = key then (k, ⟨s.count + 1, addTag tag s.types⟩) :: rest
    else (k, s) :: bump rest key tag

/-- JS `typeof v === "object"`, which is true for plain objects, arrays and
`null` alike. -/
def typeofIsObject : Value → Bool
  | .vnull => true
  | .varr _ => true
  | .vobj _ => true
  | _ => false

mutual

/-- Lines 11-39 of `infer.js` (`StatCollector`).  The early return for
`null`/`undefined`, the scalar-or-array branch recording at `prefix || "value"`,
and the key loop are translated arm for arm. -/
def collect (obj : Value) (st : Stats) (pfx : String) : Stats :=
  match obj with
  | .vnull => st
  | .vobj fields => collectFields fields st pfx
  | v => bump st (if pfx = "" then "value" else pfx) (typeName v)

/-- Lines 22-38 of `infer.js`: the `for (const k of Object.keys(obj))` loop.
Note that for an array value `v` both `typeof v === "object"` and
`Array.isArray(v)` hold, so `collect(v, stats, path)` runs as well as the
element loop. -/
def collectFields (fields : List (String × Value)) (st : Stats) (pfx : String) : Stats :=
  match fields with
  | [] => st
  | (k, v) :: rest =>
    let path := if pfx = "" then k else pfx ++ "." ++ k
    let st1 := bump st path (typeName v)
    let st2 := if typeofIsObject v then collect v st1 path else st1
    let st3 := match v with
      | .varr items => collectItems items 3 st2 (path ++ "[]")
      | _ => st2
    collectFields rest st3 pfx

/-- Lines 34-36 of `infer.js`: `for (const item of v.slice(0,3))`, written
with an explicit fuel counter of 3 instead of `slice`. -/
def collectItems (items : List Value) (fuel : Nat) (st : Stats) (p : String) : Stats :=
  match items, fuel with
  | _, 0 => st
  | [], _ => st
  | item :: rest, n + 1 => collectItems rest n (collect item st p) p

end

/-- Schema entry produced by `buildSchema` for one path. -/
structure SchemaField where
  present : Nat
  optional : Bool
  types : List String
deriving DecidableEq

/-- The `fields` mapping of a schema snapshot, in JS key insertion order. -/
abbrev Fields := List (String × SchemaField)

/-- Lines 41-51 of `infer.js` (`SchemaBuilder`). -/
def buildSchema (stats : Stats) (total : Nat) : Fields :=
  stats.map (fun ks => (ks.1, ⟨ks.2.count, decide (ks.2.count < total), ks.2.types⟩))

/-- Escape of one character inside a JSON string literal, as
`JSON.stringify` performs it (the `\uXXXX` escapes for the remaining control
characters are elided; no input in this development contains them). -/
def escapeChar (c : Char) : String :=
  if c = '"' then "\\\""
  else if c = '\\' then "\\\\"
  else if c = '\n' then "\\n"
  else if c = '\t' then "\\t"
  else if c = '\r' then "\\r"
  else String.singleton c

/-- JSON string-body escaping. -/
def escapeStr (s : String) : String :=
  String.join (s.toList.map escapeChar)

/-- JSON serialization of one schema entry, exactly the text
`JSON.stringify` produces for `{ present, optional, types }` built by
`buildSchema` (keys in creation order, no whitespace). -/
def stringifyField (f : SchemaField) : String :=
  "\x7b\"present\":" ++ toString f.present ++ ",\"optional\":"
    ++ (if f.optional then "true" else "false")
    ++ ",\"types\":[" ++ String.intercalate "," (f.types.map (fun t => "\"" ++ escapeStr t ++ "\""))
    ++ "]\x7d"

/-- JSON serialization of a whole `fields` mapping, as `JSON.stringify`
produces it (keys in insertion order). -/
def stringifyFields (fs : Fields) : String :=
  "\x7b" ++ String.intercalate ","
      (fs.map (fun kv => "\"" ++ escapeStr kv.1 ++ "\":" ++ stringifyField kv.2))
    ++ "\x7d"

/-- Lines 53-55 of `infer.js`:
`JSON.stringify(a) !== JSON.stringify(b)`, specialised to the `fields`
mappings it is applied to. -/
def deepDifferent (a b : Fields) : Bool :=
  stringifyFields a != stringifyFields b

/-- One raw record as read back by `RawRecord.find()`; only the payload is
consumed by the inference pass. -/
structure RawRecord where
  payload : Value

/-- One persisted schema snapshot (`SchemaVersion` document). -/
structure SchemaVersion where
  version : Nat
  fields : Fields
  totalSamples : Nat
  notes : String
deriving DecidableEq

/-- Line 58 of `infer.js`:
`RawRecord.find().sort({ ingestedAt:-1 }).limit(sampleSize)`.  The input list
is the raw-record collection already ordered by `ingestedAt` descending, as
the query returns it; MongoDB treats `limit(0)` as "no limit". -/
def sampleRecords (records : List RawRecord) (n : Nat) : List RawRecord :=
  if n = 0 then records else records.take n

/-- Line 65 of `infer.js`:
`SchemaVersion.findOne().sort({ version:-1 })` — the stored snapshot with the
greatest version number (the first such one if duplicates exist). -/
def findLatest (store : List SchemaVersion) : Option SchemaVersion :=
  store.foldl (fun acc s =>
    match acc with
    | none => some s
    | some t => if t.version < s.version then some s else acc) none

/-- Lines 61-64 of `infer.js`: run `collect` over every sampled payload into
one shared statistics map and build the candidate `fields` mapping from it
and the sample count. -/
def candidateSchema (samples : List RawRecord) : Fields :=
  buildSchema (samples.foldl (fun st r => collect r.payload st "") []) samples.length

/-- Lines 67-77 of `infer.js`: the conditional create.  `SchemaVersion.create`
is modelled as an unconditional append to the store: the repository declares
no uniqueness constraint or compare-and-swap for `version` (spec §9 records
the read-then-write on the latest version as an open race in the original),
so a plain insert is the faithful model.  Factored out of
`inferAndMaybeCreateVersion` so that the two awaited persistence steps — the
latest-read and the create — can be interleaved explicitly when modelling
concurrent invocations. -/
def decideCreate (latest : Option SchemaVersion) (newSchema : Fields) (total : Nat)
    (store : List SchemaVersion) : Option SchemaVersion × List SchemaVersion :=
  match latest with
  | none => ((some ⟨1, newSchema, total, "auto"⟩), store ++ [⟨1, newSchema, total, "auto"⟩])
  | some l =>
    if deepDifferent l.fields newSchema then
      ((some ⟨l.version + 1, newSchema, total, "auto"⟩),
        store ++ [⟨l.version + 1, newSchema, total, "auto"⟩])
    else (none, store)

/-- Lines 57-78 of `infer.js` (`VersionManager`): sample, profile, build the
candidate, fetch the latest snapshot, and conditionally create the next
version.  Returns the created snapshot (or `none`) together with the store
after the call. -/
def inferAndMaybeCreateVersion (records : List RawRecord) (store : List SchemaVersion)
    (sampleSize : Nat := 30) : Option SchemaVersion × List SchemaVersion :=
  let samples := sampleRecords records sampleSize
  if samples.length = 0 then (none, store)
  else decideCreate (findLatest store) (candidateSchema samples) samples.length store

/-- Result of `diffSchemas` in `routes.js`. -/
structure SchemaDiff where
  added : List String
  removed : List String
  changed : List String
deriving DecidableEq

/-- JS `fieldsX[k]` lookup on a `fields` mapping. -/
def lookupField : Fields → String → Option SchemaField
  | [], _ => none
  | (k, f) :: rest, q => if k = q then some f else lookupField rest q

/-- JS `JSON.stringify(fieldsX[k] || {})` used by the `changed` filter. -/
def stringifyLookup (fs : Fields) (k : String) : String :=
  match lookupField fs k with
  | some f => stringifyField f
  | none => "\x7b\x7d"

/-- Lines 242-255 of `routes.js` (`SchemaDiffEngine`): key-set difference in
both directions plus the stringify-compared `changed` list. -/
def diffSchemas (fieldsA fieldsB : Fields) : SchemaDiff :=
  let keysA := fieldsA.map Prod.fst
  let keysB := fieldsB.map Prod.fst
  let added := keysB.filter (fun k => !keysA.contains k)
  let removed := keysA.filter (fun k => !keysB.contains k)
  let possibleChanged := keysA.filter (fun k => keysB.contains k)
  let changed := possibleChanged.filter
    (fun k => stringifyLookup fieldsA k != stringifyLookup fieldsB k)
  ⟨added, removed, changed⟩

/-- Interleaved execution of two concurrent `inferAndMaybeCreateVersion`
calls that both already hold the same candidate schema, under the schedule in
which both latest-reads (line 65) complete before either create (line 69)
runs.  Each call performs exactly the source's two persistence steps;
`decideCreate` is the same definition `inferAndMaybeCreateVersion` runs. -/
def raceTwoSameRead (newSchema : Fields) (total : Nat) (store : List SchemaVersion) :
    (Option SchemaVersion × Option SchemaVersion) × List SchemaVersion :=
  let l0 := findLatest store
  let l1 := findLatest store
  let r0 := decideCreate l0 newSchema total store
  let r1 := decideCreate l1 newSchema total r0.2
  ((r0.1, r1.1), r1.2)

/-- Count recorded for a path, 0 if the path has no entry yet. -/
def statCount (st : Stats) (p : String) : Nat :=
  match st with
  | [] => 0
  | (k, s) :: rest => if k = p then s.count else statCount rest p

/-- Key list of a statistics map. -/
def keyList (st : Stats) : List String :=
  st.map Prod.fst

/-- Bumping a key adds 1 to that key's count and leaves every other count
unchanged. -/
theorem statCount_bump (st : Stats) (key tag p : String) :
    statCount (bump st key tag) p = statCount st p + (if p = key then 1 else 0) := by
  induction st with
  | nil =>
    simp only [bump, statCount]
    by_cases h : p = key
    · subst h; simp
    · rw [if_neg (fun hh => h hh.symm), if_neg h]
  | cons hd tl ih =>
    obtain ⟨k, s⟩ := hd
    by_cases hk : k = key
    · subst hk
      simp only [bump, if_pos rfl, statCount]
      by_cases hp : k = p
      · subst hp; simp
      · rw [if_neg hp, if_neg hp, if_neg (fun hh => hp hh.symm), Nat.add_zero]
    · simp only [bump, if_neg hk, statCount]
      by_cases hp : k = p
      · subst hp
        rw [if_pos rfl, if_pos rfl, if_neg hk, Nat.add_zero]
      · rw [if_neg hp, if_neg hp, ih]

/-- Membership in the key list after a bump. -/
theorem mem_keyList_bump (st : Stats) (key tag q : String) :
    q ∈ keyList (bump st key tag) ↔ q = key ∨ q ∈ keyList st := by
  induction st with
  | nil => simp [bump, keyList]
  | cons hd tl ih =>
    obtain ⟨k, s⟩ := hd
    by_cases hk : k = key
    · subst hk
      simp [bump, keyList]
    · simp [bump, keyList, hk] at ih ⊢
      tauto

/-- Bumping preserves duplicate-freedom of the key list. -/
theorem nodup_keyList_bump (st : Stats) (key tag : String)
    (h : (keyList st).Nodup) : (keyList (bump st key tag)).Nodup := by
  induction st with
  | nil => simp [bump, keyList]
  | cons hd tl ih =>
    obtain ⟨k, s⟩ := hd
    simp only [keyList, List.map_cons, List.nodup_cons] at h
    by_cases hk : k = key
    · subst hk
      have heq : keyList (bump ((k, s) :: tl) k tag) = k :: keyList tl := by
        simp [bump, keyList]
      rw [heq, List.nodup_cons]
      exact h
    · have h2 := ih h.2
      have heq : keyList (bump ((k, s) :: tl) key tag) = k :: keyList (bump tl key tag) := by
        simp [bump, keyList, hk]
      rw [heq, List.nodup_cons]
      refine ⟨fun hmem => ?_, h2⟩
      rcases (mem_keyList_bump tl key tag k).mp hmem with he | hm
      · exact hk he
      · exact h.1 hm

mutual

/-- Running `collect` keeps the statistics keys duplicate-free: there is never
more than one entry for the same field path. -/
theorem nodup_keyList_collect (obj : Value) (st : Stats) (pfx : String)
    (h : (keyList st).Nodup) : (keyList (collect obj st pfx)).Nodup := by
  cases obj with
  | vnull => exact h
  | vobj fields => exact nodup_keyList_collectFields fields st pfx h
  | vbool b => exact nodup_keyList_bump st _ _ h
  | vnum q => exact nodup_keyList_bump st _ _ h
  | vstr s => exact nodup_keyList_bump st _ _ h
  | varr items => exact nodup_keyList_bump st _ _ h

/-- Key-list duplicate-freedom is preserved by the field loop. -/
theorem nodup_keyList_collectFields (fields : List (String × Value)) (st : Stats) (pfx : String)
    (h : (keyList st).Nodup) : (keyList (collectFields fields st pfx)).Nodup := by
  cases fields with
  | nil => exact h
  | cons hd rest =>
    obtain ⟨k, v⟩ := hd
    cases v with
    | vnull =>
      exact nodup_keyList_collectFields rest _ pfx (nodup_keyList_bump st _ _ h)
    | vbool b =>
      exact nodup_keyList_collectFields rest _ pfx (nodup_keyList_bump st _ _ h)
    | vnum q =>
      exact nodup_keyList_collectFields rest _ pfx (nodup_keyList_bump st _ _ h)
    | vstr s =>
      exact nodup_keyList_collectFields rest _ pfx (nodup_keyList_bump st _ _ h)
    | vobj f2 =>
      exact nodup_keyList_collectFields rest _ pfx
        (nodup_keyList_collectFields f2 _ _ (nodup_keyList_bump st _ _ h))
    | varr items =>
      exact nodup_keyList_collectFields rest _ pfx
        (nodup_keyList_collectItems items 3 _ _
          (nodup_keyList_bump _ _ _ (nodup_keyList_bump st _ _ h)))

/-- Key-list duplicate-freedom is preserved by the element loop. -/
theorem nodup_keyList_collectItems (items : List Value) (fuel : Nat) (st : Stats) (p : String)
    (h : (keyList st).Nodup) : (keyList (collectItems items fuel st p)).Nodup := by
  match items, fuel with
  | [], 0 => exact h
  | _ :: _, 0 => exact h
  | [], _ + 1 => exact h
  | item :: rest, n + 1 =>
    exact nodup_keyList_collectItems rest n _ p (nodup_keyList_collect item st p h)

end

/-- Nonempty strings have positive length. -/
theorem length_pos_of_ne_empty (s : String) (h : s ≠ "") : 0 < s.length := by
  cases s with
  | mk l =>
    cases l with
    | nil => exact absurd rfl h
    | cons c cs => simp [String.length]

/-- Positive length means nonempty. -/
theorem ne_empty_of_length_pos (s : String) (h : 0 < s.length) : s ≠ "" := by
  intro he
  subst he
  exact absurd h (by simp)

/-- Length of the extended path `pfx ++ "." ++ k`. -/
theorem length_dotPath (pfx k : String) :
    (pfx ++ "." ++ k).length = pfx.length + 1 + k.length := by
  rw [String.length_append, String.length_append]
  rfl

/-- Length of the array-element path `p ++ "[]"`. -/
theorem length_bracketPath (p : String) : (p ++ "[]").length = p.length + 2 := by
  rw [String.length_append]
  rfl

mutual

/-- Every path `collect` touches under prefix `pfx` has length at least
`pfx.length`: counts of strictly shorter paths are unchanged. -/
theorem statCount_collect_below (obj : Value) (st : Stats) (pfx r : String)
    (h : r.length < pfx.length) : statCount (collect obj st pfx) r = statCount st r := by
  have hp : pfx ≠ "" := by
    intro he
    subst he
    exact absurd h (by simp)
  cases obj with
  | vnull => rfl
  | vobj fields => exact statCount_collectFields_atMost fields st pfx r hp (Nat.le_of_lt h)
  | vbool b =>
    rw [show collect (.vbool b) st pfx = bump st pfx (typeName (.vbool b)) from by
      simp [collect, if_neg hp]]
    rw [statCount_bump, if_neg (fun he : r = pfx => absurd (he ▸ h) (Nat.lt_irrefl _)),
      Nat.add_zero]
  | vnum q =>
    rw [show collect (.vnum q) st pfx = bump st pfx (typeName (.vnum q)) from by
      simp [collect, if_neg hp]]
    rw [statCount_bump, if_neg (fun he : r = pfx => absurd (he ▸ h) (Nat.lt_irrefl _)),
      Nat.add_zero]
  | vstr s =>
    rw [show collect (.vstr s) st pfx = bump st pfx (typeName (.vstr s)) from by
      simp [collect, if_neg hp]]
    rw [statCount_bump, if_neg (fun he : r = pfx => absurd (he ▸ h) (Nat.lt_irrefl _)),
      Nat.add_zero]
  | varr items =>
    rw [show collect (.varr items) st pfx = bump st pfx (typeName (.varr items)) from by
      simp [collect, if_neg hp]]
    rw [statCount_bump, if_neg (fun he : r = pfx => absurd (he ▸ h) (Nat.lt_irrefl _)),
      Nat.add_zero]

/-- Every path the field loop touches under a nonempty prefix `pfx` has length
strictly greater than `pfx.length`: counts of paths no longer than `pfx` are
unchanged. -/
theorem statCount_collectFields_atMost (fields : List (String × Value)) (st : Stats)
    (pfx r : String) (hp : pfx ≠ "") (h : r.length ≤ pfx.length) :
    statCount (collectFields fields st pfx) r = statCount st r := by
  cases fields with
  | nil => rfl
  | cons hd rest =>
    obtain ⟨k, v⟩ := hd
    have hpath : (if pfx = "" then k else pfx ++ "." ++ k) = pfx ++ "." ++ k := if_neg hp
    have hlen : pfx.length < (pfx ++ "." ++ k).length := by
      rw [length_dotPath]; omega
    have hrp : r ≠ pfx ++ "." ++ k := by
      intro he
      rw [he] at h
      omega
    have hpne : pfx ++ "." ++ k ≠ "" :=
      ne_empty_of_length_pos _ (by rw [length_dotPath]; omega)
    have hble : r.length < (pfx ++ "." ++ k).length := Nat.lt_of_le_of_lt h hlen
    cases v with
    | vnull =>
      calc statCount (collectFields ((k, Value.vnull) :: rest) st pfx) r
          = statCount (bump st (if pfx = "" then k else pfx ++ "." ++ k) "null") r :=
            statCount_collectFields_atMost rest _ pfx r hp h
        _ = statCount st r := by rw [hpath, statCount_bump, if_neg hrp, Nat.add_zero]
    | vbool b =>
      calc statCount (collectFields ((k, Value.vbool b) :: rest) st pfx) r
          = statCount (bump st (if pfx = "" then k else pfx ++ "." ++ k) "boolean") r :=
            statCount_collectFields_atMost rest _ pfx r hp h
        _ = statCount st r := by rw [hpath, statCount_bump, if_neg hrp, Nat.add_zero]
    | vnum q =>
      calc statCount (collectFields ((k, Value.vnum q) :: rest) st pfx) r
          = statCount (bump st (if pfx = "" then k else pfx ++ "." ++ k)
              (typeName (.vnum q))) r :=
            statCount_collectFields_atMost rest _ pfx r hp h
        _ = statCount st r := by rw [hpath, statCount_bump, if_neg hrp, Nat.add_zero]
    | vstr s =>
      calc statCount (collectFields ((k, Value.vstr s) :: rest) st pfx) r
          = statCount (bump st (if pfx = "" then k else pfx ++ "." ++ k) "string") r :=
            statCount_collectFields_atMost rest _ pfx r hp h
        _ = statCount st r := by rw [hpath, statCount_bump, if_neg hrp, Nat.add_zero]
    | vobj f2 =>
      calc statCount (collectFields ((k, Value.vobj f2) :: rest) st pfx) r
          = statCount (collectFields f2
              (bump st (if pfx = "" then k else pfx ++ "." ++ k) "object")
              (if pfx = "" then k else pfx ++ "." ++ k)) r :=
            statCount_collectFields_atMost rest _ pfx r hp h
        _ = statCount (bump st (if pfx = "" then k else pfx ++ "." ++ k) "object") r := by
            rw [hpath]
            exact statCount_collectFields_atMost f2 _ _ r hpne (Nat.le_of_lt hble)
        _ = statCount st r := by rw [hpath, statCount_bump, if_neg hrp, Nat.add_zero]
    | varr items =>
      calc statCount (collectFields ((k, Value.varr items) :: rest) st pfx) r
          = statCount (collectItems items 3
              (collect (.varr items)
                (bump st (if pfx = "" then k else pfx ++ "." ++ k) "array")
                (if pfx = "" then k else pfx ++ "." ++ k))
              ((if pfx = "" then k else pfx ++ "." ++ k) ++ "[]")) r :=
            statCount_collectFields_atMost rest _ pfx r hp h
        _ = statCount (collect (.varr items)
              (bump st (if pfx = "" then k else pfx ++ "." ++ k) "array")
              (if pfx = "" then k else pfx ++ "." ++ k)) r := by
            rw [hpath]
            exact statCount_collectItems_below items 3 _ _ r (by rw [length_bracketPath]; omega)
        _ = statCount st r := by
            rw [hpath]
            rw [show collect (.varr items) (bump st (pfx ++ "." ++ k) "array") (pfx ++ "." ++ k)
                = bump (bump st (pfx ++ "." ++ k) "array") (pfx ++ "." ++ k) "array" from by
              simp [collect, hpne, typeName]]
            rw [statCount_bump, if_neg hrp, Nat.add_zero, statCount_bump, if_neg hrp,
              Nat.add_zero]

/-- Every path the element loop touches under prefix `p` has length at least
`p.length`: counts of strictly shorter paths are unchanged. -/
theorem statCount_collectItems_below (items : List Value) (fuel : Nat) (st : Stats)
    (p r : String) (h : r.length < p.length) :
    statCount (collectItems items fuel st p) r = statCount st r := by
  match items, fuel with
  | [], 0 => rfl
  | _ :: _, 0 => rfl
  | [], _ + 1 => rfl
  | item :: rest, n + 1 =>
    show statCount (collectItems rest n (collect item st p) p) r = _
    rw [statCount_collectItems_below rest n _ p r h]
    exact statCount_collect_below item st p r h

end

/-- The element loop with fuel `n` only ever reads the first `n` elements of
its list. -/
theorem collectItems_take (items : List Value) (n : Nat) (st : Stats) (p : String) :
    collectItems items n st p = collectItems (items.take n) n st p := by
  induction items generalizing n st with
  | nil => rw [List.take_nil]
  | cons it rest ih =>
    cases n with
    | zero => rfl
    | succ m =>
      show collectItems rest m (collect it st p) p
        = collectItems ((it :: rest).take (m + 1)) (m + 1) st p
      rw [List.take_succ_cons]
      show _ = collectItems (rest.take m) m (collect it st p) p
      exact ih m (collect it st p)

/-- C1, counterexample: the claim says a field whose value is an array is
counted exactly once at its own path, with `occurrenceCount = 1`; on the
single document `{"a": []}` the code records `occurrenceCount = 2` at path
`"a"` — once in the field loop and a second time because
`typeof [] === "object"` sends the array through the recursive call, whose
scalar-or-array branch bumps the same path again. -/
theorem collect_array_field_counted_twice_cex :
    ¬ statCount (collect (.vobj [("a", .varr [])]) [] "") "a" = 1 := by decide

/-- C1, amended: `collect` on a fresh map keeps at most one statistics entry
per field path (duplicate-free keys), and a single-field document `{k: v}`
(with a nonempty key) yields `occurrenceCount = 1` at path `k` when `v` is a
scalar, `null`, or an object — but `occurrenceCount = 2` when `v` is an
array, and an array-element path accumulates one count per visited element
(e.g. 2 for a two-element array of scalars). -/
theorem collect_fresh_entry_counts :
    (∀ (D : Value) (st : Stats) (pfx : String),
      (keyList st).Nodup → (keyList (collect D st pfx)).Nodup) ∧
    (∀ (k : String) (v : Value), typeofIsObject v = false →
      collect (.vobj [(k, v)]) [] "" = [(k, ⟨1, [typeName v]⟩)]) ∧
    (∀ k : String, collect (.vobj [(k, .vnull)]) [] "" = [(k, ⟨1, ["null"]⟩)]) ∧
    (∀ (k : String) (f2 : List (String × Value)), k ≠ "" →
      statCount (collect (.vobj [(k, .vobj f2)]) [] "") k = 1) ∧
    (∀ (k : String) (items : List Value), k ≠ "" →
      statCount (collect (.vobj [(k, .varr items)]) [] "") k = 2) ∧
    statCount (collect (.vobj [("a", .varr [.vnum 1, .vnum 2])]) [] "") "a[]" = 2 := by
  refine ⟨fun D st pfx h => nodup_keyList_collect D st pfx h, ?_, fun k => rfl, ?_, ?_,
    by decide⟩
  · intro k v hv
    cases v with
    | vnull => simp [typeofIsObject] at hv
    | varr items => simp [typeofIsObject] at hv
    | vobj f2 => simp [typeofIsObject] at hv
    | vbool b => rfl
    | vnum q => rfl
    | vstr s => rfl
  · intro k f2 hk
    calc statCount (collect (.vobj [(k, .vobj f2)]) [] "") k
        = statCount (collectFields f2 (bump [] k "object") k) k := rfl
      _ = statCount (bump [] k "object") k :=
          statCount_collectFields_atMost f2 _ k k hk (Nat.le_refl _)
      _ = 1 := by rw [statCount_bump]; simp [statCount]
  · intro k items hk
    calc statCount (collect (.vobj [(k, .varr items)]) [] "") k
        = statCount (collectItems items 3
            (collect (.varr items) (bump [] k "array") k) (k ++ "[]")) k := rfl
      _ = statCount (collect (.varr items) (bump [] k "array") k) k :=
          statCount_collectItems_below items 3 _ _ k (by rw [length_bracketPath]; omega)
      _ = statCount (bump (bump [] k "array") k "array") k := by
          rw [show collect (.varr items) (bump [] k "array") k
              = bump (bump [] k "array") k "array" from by
            simp [collect, hk, typeName]]
      _ = 2 := by rw [statCount_bump, statCount_bump]; simp [statCount]

/-- C1, witness: the amended statement applied at concrete documents. -/
theorem collect_fresh_entry_counts_witness :
    (keyList (collect (.vobj [("a", .varr [.vnum 1])]) [] "")).Nodup ∧
    collect (.vobj [("b", .vstr "s")]) [] "" = [("b", ⟨1, ["string"]⟩)] ∧
    statCount (collect (.vobj [("c", .vobj [("d", .vnum 1)])]) [] "") "c" = 1 ∧
    statCount (collect (.vobj [("e", .varr [])]) [] "") "e" = 2 :=
  ⟨collect_fresh_entry_counts.1 (.vobj [("a", .varr [.vnum 1])]) [] "" (by decide),
   collect_fresh_entry_counts.2.1 "b" (.vstr "s") (by decide),
   collect_fresh_entry_counts.2.2.2.1 "c" [("d", .vnum 1)] (by decide),
   collect_fresh_entry_counts.2.2.2.2.1 "e" [] (by decide)⟩

/-- C2: the version-drift comparison is sensitive to type-list order.  The
two field maps below agree on the path set, the counts, the optional flags
and the set of type tags (the type lists are permutations of each other),
yet `deepDifferent` — a raw `JSON.stringify` comparison with no
normalization of the type lists — reports them as different. -/
theorem deepDifferent_type_order_sensitive :
    List.Perm ["integer", "string"] ["string", "integer"] ∧
    deepDifferent [("a", ⟨1, false, ["integer", "string"]⟩)]
      [("a", ⟨1, false, ["string", "integer"]⟩)] = true := by
  exact ⟨by decide, by decide⟩

/-- C3: two concurrent `inferAndMaybeCreateVersion` calls that both read the
same latest snapshot (version 1) before either create runs, with the same
candidate schema differing from the latest, BOTH persist a snapshot with
target version 2: the store ends with two new versions, not one, because the
engine does an unguarded read-then-write. -/
theorem race_two_persists_duplicate_versions :
    raceTwoSameRead [("a", ⟨1, false, ["integer"]⟩)] 1 [⟨1, [], 1, "auto"⟩] =
      ((some ⟨2, [("a", ⟨1, false, ["integer"]⟩)], 1, "auto"⟩,
        some ⟨2, [("a", ⟨1, false, ["integer"]⟩)], 1, "auto"⟩),
       [⟨1, [], 1, "auto"⟩,
        ⟨2, [("a", ⟨1, false, ["integer"]⟩)], 1, "auto"⟩,
        ⟨2, [("a", ⟨1, false, ["integer"]⟩)], 1, "auto"⟩]) ∧
    ((raceTwoSameRead [("a", ⟨1, false, ["integer"]⟩)] 1 [⟨1, [], 1, "auto"⟩]).2.filter
        (fun s => s.version == 2)).length = 2 := by
  exact ⟨by decide, by decide⟩

/-- C4: with a non-empty sample, `inferAndMaybeCreateVersion` creates and
returns a snapshot with version `latest.version + 1` (or 1 when no snapshot
exists) and `totalSamples` equal to the number of records actually sampled,
whenever no latest snapshot exists or the candidate differs from it; and
creates nothing, returning `none`, when the candidate equals the latest. -/
theorem infer_creates_on_drift_else_null (records : List RawRecord)
    (store : List SchemaVersion) (n : Nat)
    (hne : sampleRecords records n ≠ []) :
    (findLatest store = none →
      inferAndMaybeCreateVersion records store n =
        (some ⟨1, candidateSchema (sampleRecords records n),
            (sampleRecords records n).length, "auto"⟩,
         store ++ [⟨1, candidateSchema (sampleRecords records n),
            (sampleRecords records n).length, "auto"⟩])) ∧
    (∀ l, findLatest store = some l →
      deepDifferent l.fields (candidateSchema (sampleRecords records n)) = true →
      inferAndMaybeCreateVersion records store n =
        (some ⟨l.version + 1, candidateSchema (sampleRecords records n),
            (sampleRecords records n).length, "auto"⟩,
         store ++ [⟨l.version + 1, candidateSchema (sampleRecords records n),
            (sampleRecords records n).length, "auto"⟩])) ∧
    (∀ l, findLatest store = some l →
      deepDifferent l.fields (candidateSchema (sampleRecords records n)) = false →
      inferAndMaybeCreateVersion records store n = (none, store)) := by
  have hlen : ¬ (sampleRecords records n).length = 0 :=
    fun h => hne (List.length_eq_zero.mp h)
  refine ⟨?_, ?_, ?_⟩
  · intro hl
    simp only [inferAndMaybeCreateVersion]
    rw [if_neg hlen, hl]
    rfl
  · intro l hl hdiff
    simp only [inferAndMaybeCreateVersion]
    rw [if_neg hlen, hl]
    simp only [decideCreate, hdiff]
    rfl
  · intro l hl hdiff
    simp only [inferAndMaybeCreateVersion]
    rw [if_neg hlen, hl]
    simp only [decideCreate, hdiff]
    rfl

/-- C4, witness: one record, empty store — a version-1 snapshot is created
with `totalSamples = 1`. -/
theorem infer_creates_on_drift_else_null_witness :
    inferAndMaybeCreateVersion [⟨.vobj [("a", .vnum 1)]⟩] [] 30 =
      (some ⟨1, [("a", ⟨1, false, ["integer"]⟩)], 1, "auto"⟩,
       [⟨1, [("a", ⟨1, false, ["integer"]⟩)], 1, "auto"⟩]) :=
  (infer_creates_on_drift_else_null [⟨.vobj [("a", .vnum 1)]⟩] [] 30
    (by simp [sampleRecords])).1 rfl

/-- C5, counterexample: the claim says a top-level `null` is recorded under
the synthetic path `"value"` with tag `"null"`; in the code
`collect(null, stats)` returns before recording anything, so the fresh map
gains no `"value"` entry at all. -/
theorem collect_toplevel_null_not_recorded_cex :
    ¬ statCount (collect Value.vnull [] "") "value" = 1 := by decide

/-- C5, amended: a top-level scalar (string, boolean or number) is recorded
under the synthetic path `"value"`, incrementing that path's count and adding
the value's type tag; a top-level `null` or `undefined`-equivalent value is
not recorded at all — `collect` leaves the statistics map unchanged. -/
theorem collect_toplevel_scalar :
    (∀ (st : Stats) (v : Value), typeofIsObject v = false →
      collect v st "" = bump st "value" (typeName v)) ∧
    (∀ st : Stats, collect Value.vnull st "" = st) ∧
    (∀ (st : Stats) (t : String),
      statCount (bump st "value" t) "value" = statCount st "value" + 1) := by
  refine ⟨?_, fun st => rfl, fun st t => by rw [statCount_bump]; simp⟩
  intro st v hv
  cases v with
  | vnull => simp [typeofIsObject] at hv
  | varr items => simp [typeofIsObject] at hv
  | vobj f2 => simp [typeofIsObject] at hv
  | vbool b => rfl
  | vnum q => rfl
  | vstr s => rfl

/-- C5, witness: the amended statement applied at the top-level string
`"hi"` over a fresh map. -/
theorem collect_toplevel_scalar_witness :
    typeofIsObject (Value.vstr "hi") = false ∧
    collect (Value.vstr "hi") [] "" = bump [] "value" (typeName (Value.vstr "hi")) :=
  ⟨by decide, collect_toplevel_scalar.1 [] (Value.vstr "hi") (by decide)⟩

/-- C6: for every pair of field maps, `diffSchemas A B .added` and
`diffSchemas B A .removed` are the same list (and symmetrically): both are
the keys of B filtered by non-membership in the keys of A. -/
theorem diffSchemas_added_removed_symm (A B : Fields) :
    (diffSchemas A B).added = (diffSchemas B A).removed ∧
    (diffSchemas A B).removed = (diffSchemas B A).added :=
  ⟨rfl, rfl⟩

/-- C7: `buildSchema` maps each statistics entry to `present = count`,
`optional = true` exactly when `count < totalSamples`, and `types` equal to
the observed tag list; and on the spec's three-document example it yields
`a: present 3, optional false, types [integer, string]` and
`b: present 1, optional true, types [boolean]`. -/
theorem buildSchema_per_path :
    (∀ (stats : Stats) (total : Nat) (k : String) (f : SchemaField),
      (k, f) ∈ buildSchema stats total →
      ∃ s : FieldStat, (k, s) ∈ stats ∧ f.present = s.count ∧
        (f.optional = true ↔ s.count < total) ∧ f.types = s.types) ∧
    (∀ (stats : Stats) (total : Nat) (k : String) (s : FieldStat),
      (k, s) ∈ stats →
      (k, ⟨s.count, decide (s.count < total), s.types⟩) ∈ buildSchema stats total) ∧
    buildSchema
      (collect (.vobj [("a", .vnum 1), ("b", .vbool true)])
        (collect (.vobj [("a", .vstr "x")])
          (collect (.vobj [("a", .vnum 1)]) [] "") "") "") 3 =
      [("a", ⟨3, false, ["integer", "string"]⟩), ("b", ⟨1, true, ["boolean"]⟩)] := by
  refine ⟨?_, ?_, by decide⟩
  · intro stats total k f hmem
    unfold buildSchema at hmem
    rcases List.mem_map.mp hmem with ⟨⟨k0, s⟩, hs, heq⟩
    cases heq
    exact ⟨s, hs, rfl, by simp, rfl⟩
  · intro stats total k s hmem
    unfold buildSchema
    exact List.mem_map.mpr ⟨(k, s), hmem, rfl⟩

/-- C7, witness: both directions of the per-path characterization applied at
a one-entry statistics map with `total = 3`. -/
theorem buildSchema_per_path_witness :
    (∃ s : FieldStat, ("a", s) ∈ ([("a", FieldStat.mk 2 ["integer"])] : Stats) ∧
        (SchemaField.mk 2 true ["integer"]).present = s.count ∧
        ((SchemaField.mk 2 true ["integer"]).optional = true ↔ s.count < 3) ∧
        (SchemaField.mk 2 true ["integer"]).types = s.types) ∧
    ("a", SchemaField.mk 2 true ["integer"]) ∈
      buildSchema [("a", FieldStat.mk 2 ["integer"])] 3 :=
  ⟨buildSchema_per_path.1 [("a", FieldStat.mk 2 ["integer"])] 3 "a"
      (SchemaField.mk 2 true ["integer"]) (by decide),
   buildSchema_per_path.2.1 [("a", FieldStat.mk 2 ["integer"])] 3 "a"
      (FieldStat.mk 2 ["integer"]) (by decide)⟩

/-- C8: for an array-valued field, `collect` profiles at most the first 3
elements — the result is unchanged if elements beyond the third are dropped —
and the visited elements are recorded under the field's path suffixed with
`[]`: the spec's 4-element example `items: [{x:1},{x:2},{x:3},{x:4}]`
produces exactly 3 counts at the shared path `items[].x`. -/
theorem collect_array_cap :
    (∀ (k : String) (items : List Value) (rest : List (String × Value))
        (st : Stats) (pfx : String),
      collect (.vobj ((k, .varr items) :: rest)) st pfx =
      collect (.vobj ((k, .varr (items.take 3)) :: rest)) st pfx) ∧
    statCount (collect (.vobj [("items", .varr [.vobj [("x", .vnum 1)],
      .vobj [("x", .vnum 2)], .vobj [("x", .vnum 3)], .vobj [("x", .vnum 4)]])]) [] "")
      "items[].x" = 3 ∧
    collect (.vobj [("items", .varr [.vobj [("x", .vnum 1)], .vobj [("x", .vnum 2)],
      .vobj [("x", .vnum 3)], .vobj [("x", .vnum 4)]])]) [] "" =
      [("items", ⟨2, ["array"]⟩), ("items[].x", ⟨3, ["integer"]⟩)] := by
  refine ⟨?_, by decide, by decide⟩
  intro k items rest st pfx
  calc collect (.vobj ((k, .varr items) :: rest)) st pfx
      = collectFields rest (collectItems items 3
          (collect (.varr items)
            (bump st (if pfx = "" then k else pfx ++ "." ++ k) "array")
            (if pfx = "" then k else pfx ++ "." ++ k))
          ((if pfx = "" then k else pfx ++ "." ++ k) ++ "[]")) pfx := rfl
    _ = collectFields rest (collectItems (items.take 3) 3
          (collect (.varr items)
            (bump st (if pfx = "" then k else pfx ++ "." ++ k) "array")
            (if pfx = "" then k else pfx ++ "." ++ k))
          ((if pfx = "" then k else pfx ++ "." ++ k) ++ "[]")) pfx := by
        rw [collectItems_take]
    _ = collect (.vobj ((k, .varr (items.take 3)) :: rest)) st pfx := rfl

/-- C9: with zero raw records available, `inferAndMaybeCreateVersion` is a
no-op: it returns `none` and leaves the snapshot store untouched, for every
store and sample size. -/
theorem infer_empty_sample_noop (store : List SchemaVersion) (n : Nat) :
    inferAndMaybeCreateVersion [] store n = (none, store) := by
  simp only [inferAndMaybeCreateVersion, sampleRecords]
  cases n <;> simp

/-- C10: a top-level array is recorded as a single entry under the synthetic
path `"value"` with the one type tag `"array"`; its elements are never
visited — the result does not depend on the elements at all. -/
theorem collect_toplevel_array (items : List Value) (st : Stats) :
    collect (.varr items) st "" = bump st "value" "array" ∧
    collect (.varr items) [] "" = [("value", ⟨1, ["array"]⟩)] :=
  ⟨rfl, rfl⟩

end SchemaFlow
